import Mathlib

/-!
# Karatsuba polynomial multiplication (`src/par.cc`)

Shallow embedding of `naiveMultiply`, `add`, `sub` and `karatsubaMultiply`.

* `Poly` is `std::vector<int>`: a list of coefficients, index = degree.
* The coefficient type `int` is the parameter `R` of the embedding.  The same
  translated code is read over `Int` (values small enough not to overflow)
  and over `WrapInt`, the integers of `[-2^31, 2^31)` whose `+`, `-`, `*`
  wrap modulo `2^32`.
* Everything that can go wrong in the C++ run is a `Fault`: a subscript out
  of range, a vector built with the length `-1`, `log2` taken at `0`.
  Every subscript of the program is a checked `read`, `addAt` or `subAt`.
  Recursion is bounded by a fuel argument; running out of it is a `Fault`
  of its own, so that it is never confused with a fault of the program.
* The two worker threads of `karatsubaMultiply` are run one after the other:
  each writes only its own result slot, which is read after both joins.
* `callLocals` runs the statements of a non-base call and returns its locals,
  for the properties of `newSize`, of `middle` and of the buffer `result`.
* Lengths are naturals and `paddedSize` shifts in the naturals; up to `2 ^ 30`
  elements this is the value of line 65 in `int` and `size_t`, which
  `paddedSizeInt` models together with the `resize` of line 68.
-/

namespace Par

/-- Ways in which a run fails to return a value. -/
inductive Fault where
  /-- A vector subscript outside `[0, size)`. -/
  | outOfBounds
  /-- The call `std::log2(size)` with `size = 0`, whose result is cast to `int`. -/
  | log2Zero
  /-- A vector asked to hold more than `max_size()` elements: the constructor
  `Poly result(n + m - 1, 0)` with `n + m - 1 = -1`, or a `resize` to such a
  length. -/
  | lengthError
  /-- The shift `1 << c` of the 32-bit `int` with `c < 0` or `c ≥ 32`. -/
  | shiftRange
  /-- The recursion budget of the model is used up (not a fault of the program). -/
  | outOfFuel
  deriving DecidableEq, Repr

/-- Equality of two outcomes of a run is decidable. -/
instance instDecidableEqExcept {ε α : Type} [DecidableEq ε] [DecidableEq α] :
    DecidableEq (Except ε α)
  | .ok a, .ok b =>
    if h : a = b then isTrue (congrArg Except.ok h) else isFalse (fun h' => h (Except.ok.inj h'))
  | .error a, .error b =>
    if h : a = b then isTrue (congrArg Except.error h)
    else isFalse (fun h' => h (Except.error.inj h'))
  | .ok _, .error _ => isFalse (fun h => Except.noConfusion h)
  | .error _, .ok _ => isFalse (fun h => Except.noConfusion h)

/-- Line 7: `using Poly = std::vector<int>`, over the coefficient type `R`. -/
abbrev Poly (R : Type) := List R

section Code

variable {R : Type}

/-- The read `p[i]`. -/
def read (p : Poly R) (i : Nat) : Except Fault R :=
  match p[i]? with
  | some x => .ok x
  | none => .error .outOfBounds

/-- The statement `result[i] += v`. -/
def addAt [Add R] (result : Poly R) (i : Nat) (v : R) : Except Fault (Poly R) :=
  match result[i]? with
  | some x => .ok (result.set i (x + v))
  | none => .error .outOfBounds

/-- The statement `result[i] -= v`. -/
def subAt [Sub R] (result : Poly R) (i : Nat) (v : R) : Except Fault (Poly R) :=
  match result[i]? with
  | some x => .ok (result.set i (x - v))
  | none => .error .outOfBounds

/-- The loop `for (i = 0; i < n; i++) body(i)` on the state `s`; a fault ends it. -/
def forLoop {σ : Type} : Nat → (Nat → σ → Except Fault σ) → σ → Except Fault σ
  | 0, _, s => .ok s
  | n + 1, body, s => forLoop n body s >>= body n

/-- The call `v.resize(k, 0)`: cut to `k` elements or extend with zeros. -/
def resize [Zero R] (v : Poly R) (k : Nat) : Poly R :=
  v.take k ++ List.replicate (k - v.length) 0

/-- Lines 22-33: `naiveMultiply`. -/
def naiveMultiply [Zero R] [Add R] [Mul R] (A B : Poly R) : Except Fault (Poly R) :=
  let n := A.length
  let m := B.length
  if n + m = 0 then .error .lengthError
  else
    forLoop n (fun i result =>
      forLoop m (fun j result => do
        let a ← read A i
        let b ← read B j
        addAt result (i + j) (a * b)) result)
      (List.replicate (n + m - 1) 0)

/-- Lines 35-43: `add`. -/
def add [Zero R] [Add R] (A B : Poly R) : Except Fault (Poly R) := do
  let n := max A.length B.length
  let result := List.replicate n 0
  let result ← forLoop A.length (fun i result => do
    let a ← read A i
    addAt result i a) result
  forLoop B.length (fun i result => do
    let b ← read B i
    addAt result i b) result

/-- Lines 45-53: `sub`. -/
def sub [Zero R] [Add R] [Sub R] (A B : Poly R) : Except Fault (Poly R) := do
  let n := max A.length B.length
  let result := List.replicate n 0
  let result ← forLoop A.length (fun i result => do
    let a ← read A i
    addAt result i a) result
  forLoop B.length (fun i result => do
    let b ← read B i
    subAt result i b) result

/-- Search of the least `k` with `size ≤ 2 ^ k`, `p` being `2 ^ k`. -/
def ceilLog2Loop (size : Nat) : Nat → Nat → Nat → Nat
  | 0, k, _ => k
  | fuel + 1, k, p => if size ≤ p then k else ceilLog2Loop size fuel (k + 1) (2 * p)

/-- The exact value of `std::ceil(std::log2(size))` for `size ≥ 1`: the least `k`
with `size ≤ 2 ^ k`, which is the ceiling of the real logarithm
(`ceilLog2_eq_ceil_logb`).  The program computes it in double precision; the
embedding takes the mathematical value and does not model the rounding. -/
def ceilLog2 (size : Nat) : Nat :=
  ceilLog2Loop size size 0 1

/-- Line 65: `newSize = 1 << static_cast<int>(std::ceil(std::log2(size)))`.
At `size = 0` the logarithm is minus infinity and its cast to `int` has no
defined value.  The shift is taken in the naturals.  For `size ≤ 2 ^ 30` this
is what the program computes in `int` and `size_t`
(`paddedSizeInt_eq_paddedSize`); above, the `int` shift of the program
overflows, which `paddedSizeInt` models. -/
def paddedSize (size : Nat) : Except Fault Nat :=
  if size = 0 then .error .log2Zero else .ok (1 <<< ceilLog2 size)

/-- The locals of a non-base call of `karatsubaMultiply` before it recurses. -/
structure Frame (R : Type) where
  /-- Line 65. -/
  newSize : Nat
  /-- Line 71. -/
  mid : Nat
  /-- Line 72. -/
  A_low : Poly R
  /-- Line 73. -/
  A_high : Poly R
  /-- Line 74. -/
  B_low : Poly R
  /-- Line 75. -/
  B_high : Poly R
  /-- Line 82. -/
  sumA : Poly R
  /-- Line 83. -/
  sumB : Poly R

/-- Lines 64-75 and 82-83: padding, split and the two sums.  The sums are
taken here, before the two worker calls of lines 79-80 rather than after
them: `add` returns for all operands, so the order changes no outcome. -/
def prepare [Zero R] [Add R] (A B : Poly R) : Except Fault (Frame R) := do
  let n := A.length
  let m := B.length
  let size := max n m
  let newSize ← paddedSize size
  let A_resized := resize A newSize
  let B_resized := resize B newSize
  let mid := newSize / 2
  let A_low := A_resized.take mid
  let A_high := A_resized.drop mid
  let B_low := B_resized.take mid
  let B_high := B_resized.drop mid
  let sumA ← add A_low A_high
  let sumB ← add B_low B_high
  pure ⟨newSize, mid, A_low, A_high, B_low, B_high, sumA, sumB⟩

/-- Lines 89-90: `middle = sub(middle, low); middle = sub(middle, high)`. -/
def middleTerm [Zero R] [Add R] [Sub R] (middle low high : Poly R) :
    Except Fault (Poly R) := do
  let middle ← sub middle low
  sub middle high

/-- Lines 92-98: the buffer of `2 * newSize` zeros with `low`, `middle` and
`high` added at the offsets `0`, `mid` and `2 * mid`. -/
def reconstruct [Zero R] [Add R] (newSize mid : Nat) (low middle high : Poly R) :
    Except Fault (Poly R) := do
  let result := List.replicate (2 * newSize) 0
  let result ← forLoop low.length (fun i result => do
    let x ← read low i
    addAt result i x) result
  let result ← forLoop middle.length (fun i result => do
    let x ← read middle i
    addAt result (i + mid) x) result
  forLoop high.length (fun i result => do
    let x ← read high i
    addAt result (i + 2 * mid) x) result

/-- Lines 56-102: `karatsubaMultiply`, with at most `fuel` nested calls.  The
calls of the workers `t1` and `t2` and the call of the calling thread are
made in turn; a fault in one of them is the outcome of the whole call. -/
def karatsubaFuel [Zero R] [Add R] [Sub R] [Mul R] :
    Nat → Poly R → Poly R → Except Fault (Poly R)
  | 0, _, _ => .error .outOfFuel
  | fuel + 1, A, B =>
    let n := A.length
    let m := B.length
    if n = 1 ∧ m = 1 then do
      let a ← read A 0
      let b ← read B 0
      pure [a * b]
    else do
      let f ← prepare A B
      let low ← karatsubaFuel fuel f.A_low f.B_low
      let high ← karatsubaFuel fuel f.A_high f.B_high
      let middle ← karatsubaFuel fuel f.sumA f.sumB
      let middle ← middleTerm middle low high
      let result ← reconstruct f.newSize f.mid low middle high
      pure (resize result (n + m - 1))

/-- Lines 56-102: `karatsubaMultiply`.  The budget is one more than the longer
operand, which no run on operands of positive length uses up. -/
def karatsubaMultiply [Zero R] [Add R] [Sub R] [Mul R] (A B : Poly R) :
    Except Fault (Poly R) :=
  karatsubaFuel (max A.length B.length + 1) A B

end Code

section Int32

/-- The `int` that stores the integer `x`: the residue of `x` modulo `2^32`
that lies in `[-2^31, 2^31)`. -/
def wrap (x : Int) : Int :=
  (x + 2147483648) % 4294967296 - 2147483648

/-- The values of the 32-bit type `int`. -/
@[ext]
structure WrapInt where
  /-- The integer stored. -/
  val : Int
  /-- It is at least `INT_MIN`. -/
  lo : -2147483648 ≤ val
  /-- It is at most `INT_MAX`. -/
  hi : val < 2147483648
  deriving DecidableEq

/-- The `int` obtained by wrapping the integer `x`. -/
def WrapInt.ofInt (x : Int) : WrapInt :=
  ⟨wrap x, by unfold wrap; omega, by unfold wrap; omega⟩

instance : Zero WrapInt := ⟨WrapInt.ofInt 0⟩

instance : One WrapInt := ⟨WrapInt.ofInt 1⟩

/-- Wrapping `+` of `int`. -/
instance : Add WrapInt := ⟨fun a b => WrapInt.ofInt (a.val + b.val)⟩

/-- Wrapping `-` of `int`. -/
instance : Sub WrapInt := ⟨fun a b => WrapInt.ofInt (a.val - b.val)⟩

/-- Wrapping `*` of `int`. -/
instance : Mul WrapInt := ⟨fun a b => WrapInt.ofInt (a.val * b.val)⟩

instance : Neg WrapInt := ⟨fun a => WrapInt.ofInt (-a.val)⟩

instance : SMul Nat WrapInt := ⟨fun n a => WrapInt.ofInt (n * a.val)⟩

instance : SMul Int WrapInt := ⟨fun n a => WrapInt.ofInt (n * a.val)⟩

instance : Pow WrapInt Nat := ⟨fun a n => WrapInt.ofInt (a.val ^ n)⟩

instance : NatCast WrapInt := ⟨fun n => WrapInt.ofInt n⟩

instance : IntCast WrapInt := ⟨fun n => WrapInt.ofInt n⟩

/-- The 32-bit `int` with wrapping `+`, `-`, `*` is a commutative ring: its
values are the residues modulo `2^32`, and each operation is the operation of
the integers followed by `wrap`. -/
instance instCommRingWrapInt : CommRing WrapInt :=
  have hw : ∀ x : Int, ((wrap x : Int) : ZMod 4294967296) = (x : ZMod 4294967296) := by
    intro x
    rw [ZMod.intCast_eq_intCast_iff']
    unfold wrap
    push_cast
    omega
  Function.Injective.commRing (fun a : WrapInt => ((a.val : Int) : ZMod 4294967296))
    (by
      intro a b h
      have h' : ((a.val : Int) : ZMod 4294967296) = ((b.val : Int) : ZMod 4294967296) := h
      rw [ZMod.intCast_eq_intCast_iff'] at h'
      push_cast at h'
      have ha₁ := a.lo
      have ha₂ := a.hi
      have hb₁ := b.lo
      have hb₂ := b.hi
      apply WrapInt.ext
      omega)
    (by show ((wrap 0 : Int) : ZMod 4294967296) = 0; rw [hw]; simp)
    (by show ((wrap 1 : Int) : ZMod 4294967296) = 1; rw [hw]; simp)
    (fun x y => by
      show ((wrap (x.val + y.val) : Int) : ZMod 4294967296) = _
      rw [hw]; push_cast; rfl)
    (fun x y => by
      show ((wrap (x.val * y.val) : Int) : ZMod 4294967296) = _
      rw [hw]; push_cast; rfl)
    (fun x => by
      show ((wrap (-x.val) : Int) : ZMod 4294967296) = _
      rw [hw]; push_cast; rfl)
    (fun x y => by
      show ((wrap (x.val - y.val) : Int) : ZMod 4294967296) = _
      rw [hw]; push_cast; rfl)
    (fun n x => by
      show ((wrap (n * x.val) : Int) : ZMod 4294967296) = _
      rw [hw]; push_cast; simp)
    (fun n x => by
      show ((wrap (n * x.val) : Int) : ZMod 4294967296) = _
      rw [hw]; push_cast; simp)
    (fun x n => by
      show ((wrap (x.val ^ n) : Int) : ZMod 4294967296) = _
      rw [hw]; push_cast; rfl)
    (fun n => by
      show ((wrap n : Int) : ZMod 4294967296) = _
      rw [hw]; simp)
    (fun n => by
      show ((wrap n : Int) : ZMod 4294967296) = _
      rw [hw])

end Int32

section MachineSize

/-- The `int` value of the expression `1 << c` of line 65, `c` being the
exponent that the cast to `int` returns: the shift is that of the 32-bit
`int` literal `1`, so that `1 << 31` is `INT_MIN`, and it has no defined value
for `c < 0` or `c ≥ 32`. -/
def shiftOne (c : Int) : Except Fault Int :=
  if 0 ≤ c ∧ c < 32 then .ok (wrap (2 ^ c.toNat)) else .error .shiftRange

/-- The conversion of an `int` to the 64-bit `size_t`. -/
def toSizeT (x : Int) : Nat :=
  (x % 18446744073709551616).toNat

/-- Line 65 in the types of the program, for the exponent `c` that the cast
returns: `size_t newSize = 1 << c`. -/
def newSizeOfExponent (c : Int) : Except Fault Nat := do
  let x ← shiftOne c
  pure (toSizeT x)

end MachineSize

/-- The power series whose coefficient of `X ^ k` is the entry `k` of the list. -/
def gen {R : Type} [Zero R] (L : Poly R) : PowerSeries R :=
  PowerSeries.mk (fun k => L.getD k 0)

/-- What `prepare` returns when the longer operand has at least two elements. -/
structure PrepareSpec {R : Type} [CommRing R] (A B : Poly R) (f : Frame R) : Prop where
  newSize_eq : f.newSize = 2 * f.mid
  mid_eq : f.mid = 2 ^ (ceilLog2 (max A.length B.length) - 1)
  mid_pos : 1 ≤ f.mid
  mid_lt : f.mid < max A.length B.length
  le_newSize : max A.length B.length ≤ 2 * f.mid
  len_A_low : f.A_low.length = f.mid
  len_A_high : f.A_high.length = f.mid
  len_B_low : f.B_low.length = f.mid
  len_B_high : f.B_high.length = f.mid
  len_sumA : f.sumA.length = f.mid
  len_sumB : f.sumB.length = f.mid
  gen_A : gen f.A_low + PowerSeries.X ^ f.mid * gen f.A_high = gen A
  gen_B : gen f.B_low + PowerSeries.X ^ f.mid * gen f.B_high = gen B
  gen_sumA : gen f.sumA = gen f.A_low + gen f.A_high
  gen_sumB : gen f.sumB = gen f.B_low + gen f.B_high

section Basic

variable {R : Type}

theorem read_of_lt [Zero R] (p : Poly R) (i : Nat) (h : i < p.length) :
    read p i = .ok (p.getD i 0) := by
  simp [read, List.getD_eq_getElem?_getD, List.getElem?_eq_getElem h]

theorem addAt_of_lt [Zero R] [Add R] (r : Poly R) (i : Nat) (v : R) (h : i < r.length) :
    addAt r i v = .ok (r.set i (r.getD i 0 + v)) := by
  simp [addAt, List.getD_eq_getElem?_getD, List.getElem?_eq_getElem h]

theorem subAt_of_lt [Zero R] [Sub R] (r : Poly R) (i : Nat) (v : R) (h : i < r.length) :
    subAt r i v = .ok (r.set i (r.getD i 0 - v)) := by
  simp [subAt, List.getD_eq_getElem?_getD, List.getElem?_eq_getElem h]

theorem getD_set_of_lt [Zero R] (r : Poly R) (i k : Nat) (x : R) (h : i < r.length) :
    (r.set i x).getD k 0 = if k = i then x else r.getD k 0 := by
  simp only [List.getD_eq_getElem?_getD, List.getElem?_set]
  by_cases hk : i = k
  · subst hk; simp [h]
  · simp [hk, Ne.symm hk]

end Basic

section Series

variable {R : Type} [CommRing R]

open PowerSeries

theorem coeff_gen (L : Poly R) (k : Nat) : coeff R k (gen L) = L.getD k 0 := by
  simp [gen, coeff_mk]

theorem getD_of_length_le (L : Poly R) (k : Nat) (h : L.length ≤ k) : L.getD k 0 = 0 := by
  simp [List.getD_eq_getElem?_getD, List.getElem?_eq_none h]

theorem gen_set (r : Poly R) (i : Nat) (v : R) (h : i < r.length) :
    gen (r.set i (r.getD i 0 + v)) = gen r + monomial R i v := by
  ext k
  simp only [coeff_gen, map_add, coeff_monomial, getD_set_of_lt r i k _ h]
  split_ifs with hk
  · subst hk; rfl
  · simp

theorem gen_replicate_zero (n : Nat) : gen (List.replicate n (0 : R)) = 0 := by
  ext k
  simp only [coeff_gen, map_zero, List.getD_eq_getElem?_getD, List.getElem?_replicate]
  split_ifs <;> rfl

theorem gen_eq_sum (L : Poly R) :
    gen L = ∑ i in Finset.range L.length, monomial R i (L.getD i 0) := by
  ext k
  simp only [coeff_gen, map_sum, coeff_monomial]
  by_cases hk : k < L.length
  · rw [Finset.sum_eq_single k]
    · simp
    · intro b _ hb; simp [Ne.symm hb]
    · intro hn; exact absurd (Finset.mem_range.mpr hk) hn
  · rw [getD_of_length_le L k (not_lt.mp hk)]
    symm
    apply Finset.sum_eq_zero
    intro i hi
    have : i < L.length := Finset.mem_range.mp hi
    have : k ≠ i := by omega
    simp [this]

end Series

section Loops

variable {R : Type} [CommRing R]

open PowerSeries

/-- A loop whose body keeps the length of the buffer and adds `delta i` to its
series adds the sum of the `delta i`. -/
theorem forLoop_gen (len n : Nat) (body : Nat → Poly R → Except Fault (Poly R))
    (delta : Nat → PowerSeries R)
    (h : ∀ i, i < n → ∀ s : Poly R, s.length = len →
      ∃ s', body i s = .ok s' ∧ s'.length = len ∧ gen s' = gen s + delta i)
    (r : Poly R) (hr : r.length = len) :
    ∃ r', forLoop n body r = .ok r' ∧ r'.length = len ∧
      gen r' = gen r + ∑ i in Finset.range n, delta i := by
  induction n with
  | zero => exact ⟨r, rfl, hr, by simp⟩
  | succ n ih =>
    obtain ⟨r₁, h₁, hl₁, hg₁⟩ := ih (fun i hi => h i (Nat.lt_succ_of_lt hi))
    obtain ⟨r₂, h₂, hl₂, hg₂⟩ := h n (Nat.lt_succ_self n) r₁ hl₁
    refine ⟨r₂, ?_, hl₂, ?_⟩
    · show (forLoop n body r >>= body n) = _
      rw [h₁]
      exact h₂
    · rw [hg₂, hg₁, Finset.sum_range_succ, add_assoc]

/-- The loop `for (i = 0; i < xs.size(); i++) result[idx i] += xs[i]`. -/
theorem forLoop_acc (xs : Poly R) (idx : Nat → Nat) (r : Poly R)
    (hidx : ∀ i, i < xs.length → idx i < r.length) :
    ∃ r', forLoop xs.length (fun i result => do
        let x ← read xs i
        addAt result (idx i) x) r = .ok r' ∧ r'.length = r.length ∧
      gen r' = gen r + ∑ i in Finset.range xs.length, monomial R (idx i) (xs.getD i 0) := by
  apply forLoop_gen r.length xs.length _ (fun i => monomial R (idx i) (xs.getD i 0)) _ r rfl
  intro i hi s hs
  refine ⟨s.set (idx i) (s.getD (idx i) 0 + xs.getD i 0), ?_, by simp [hs], ?_⟩
  · show (read xs i >>= fun x => addAt s (idx i) x) = _
    rw [read_of_lt xs i hi]
    exact addAt_of_lt s (idx i) _ (by rw [hs]; exact hidx i hi)
  · exact gen_set s (idx i) _ (by rw [hs]; exact hidx i hi)

/-- The loop `for (i = 0; i < xs.size(); i++) result[i] -= xs[i]`. -/
theorem forLoop_accSub (xs : Poly R) (r : Poly R) (hidx : xs.length ≤ r.length) :
    ∃ r', forLoop xs.length (fun i result => do
        let x ← read xs i
        subAt result i x) r = .ok r' ∧ r'.length = r.length ∧
      gen r' = gen r + ∑ i in Finset.range xs.length, monomial R i (-xs.getD i 0) := by
  apply forLoop_gen r.length xs.length _ (fun i => monomial R i (-xs.getD i 0)) _ r rfl
  intro i hi s hs
  have hlt : i < s.length := by omega
  refine ⟨s.set i (s.getD i 0 - xs.getD i 0), ?_, by simp [hs], ?_⟩
  · show (read xs i >>= fun x => subAt s i x) = _
    rw [read_of_lt xs i hi]
    exact subAt_of_lt s i _ hlt
  · rw [sub_eq_add_neg]
    exact gen_set s i _ hlt

theorem add_spec (A B : Poly R) :
    ∃ C, add A B = .ok C ∧ C.length = max A.length B.length ∧ gen C = gen A + gen B := by
  obtain ⟨r₁, h₁, hl₁, hg₁⟩ := forLoop_acc A (fun i => i)
    (List.replicate (max A.length B.length) (0 : R)) (by intro i hi; simp; omega)
  obtain ⟨r₂, h₂, hl₂, hg₂⟩ := forLoop_acc B (fun i => i) r₁
    (by intro i hi; rw [hl₁]; simp; omega)
  refine ⟨r₂, ?_, ?_, ?_⟩
  · show (forLoop A.length _ _ >>= fun result => forLoop B.length _ result) = _
    rw [h₁]
    exact h₂
  · rw [hl₂, hl₁]; simp
  · rw [hg₂, hg₁, gen_replicate_zero, zero_add, ← gen_eq_sum, ← gen_eq_sum]

theorem sub_spec (A B : Poly R) :
    ∃ C, sub A B = .ok C ∧ C.length = max A.length B.length ∧ gen C = gen A - gen B := by
  obtain ⟨r₁, h₁, hl₁, hg₁⟩ := forLoop_acc A (fun i => i)
    (List.replicate (max A.length B.length) (0 : R)) (by intro i hi; simp; omega)
  obtain ⟨r₂, h₂, hl₂, hg₂⟩ := forLoop_accSub B r₁ (by rw [hl₁]; simp)
  refine ⟨r₂, ?_, ?_, ?_⟩
  · show (forLoop A.length _ _ >>= fun result => forLoop B.length _ result) = _
    rw [h₁]
    exact h₂
  · rw [hl₂, hl₁]; simp
  · rw [hg₂, hg₁, gen_replicate_zero, zero_add, ← gen_eq_sum, gen_eq_sum B, sub_eq_add_neg,
      ← Finset.sum_neg_distrib]
    simp only [map_neg]

end Loops

section Naive

variable {R : Type} [CommRing R]

open PowerSeries

end Naive

section Log

theorem ceilLog2Loop_spec (size : Nat) :
    ∀ fuel k, (∀ j, j < k → 2 ^ j < size) → size ≤ 2 ^ (k + fuel) →
      size ≤ 2 ^ ceilLog2Loop size fuel k (2 ^ k) ∧
        ∀ j, j < ceilLog2Loop size fuel k (2 ^ k) → 2 ^ j < size := by
  intro fuel
  induction fuel with
  | zero =>
    intro k hk hle
    exact ⟨by simpa [ceilLog2Loop] using hle, by simpa [ceilLog2Loop] using hk⟩
  | succ fuel ih =>
    intro k hk hle
    unfold ceilLog2Loop
    by_cases hs : size ≤ 2 ^ k
    · rw [if_pos hs]
      exact ⟨hs, hk⟩
    · rw [if_neg hs]
      have hp : 2 * 2 ^ k = 2 ^ (k + 1) := by rw [pow_succ]; ring
      rw [hp]
      apply ih (k + 1)
      · intro j hj
        rcases Nat.lt_succ_iff_lt_or_eq.mp hj with h | h
        · exact hk j h
        · subst h; omega
      · have : k + 1 + fuel = k + (fuel + 1) := by ring
        rw [this]; exact hle

/-- The value `ceilLog2 size` is the least exponent `k` with `size ≤ 2 ^ k`. -/
theorem ceilLog2_spec (size : Nat) :
    size ≤ 2 ^ ceilLog2 size ∧ ∀ j, j < ceilLog2 size → 2 ^ j < size := by
  have h := ceilLog2Loop_spec size size 0 (by intro j hj; omega)
    (by rw [Nat.zero_add]; exact Nat.le_of_lt (Nat.lt_two_pow size))
  simpa [ceilLog2] using h

theorem ceilLog2_pos (size : Nat) (h : 2 ≤ size) : 1 ≤ ceilLog2 size := by
  obtain ⟨h₁, _⟩ := ceilLog2_spec size
  by_contra hne
  have h0 : ceilLog2 size = 0 := by omega
  rw [h0] at h₁
  simp at h₁
  omega

theorem ceilLog2_eq_clog (size : Nat) : ceilLog2 size = Nat.clog 2 size := by
  obtain ⟨h₁, h₂⟩ := ceilLog2_spec size
  apply le_antisymm
  · by_contra hn
    have hlt := h₂ (Nat.clog 2 size) (not_le.mp hn)
    exact absurd (Nat.le_pow_clog (by norm_num) size) (not_le.mpr hlt)
  · exact (Nat.le_pow_iff_clog_le (by norm_num)).mp h₁

/-- The value `ceilLog2 size` is the ceiling of the real logarithm of `size`
to the base 2: the value of `std::ceil(std::log2(size))` in exact arithmetic. -/
theorem ceilLog2_eq_ceil_logb (size : Nat) :
    (ceilLog2 size : Int) = ⌈Real.logb 2 (size : Real)⌉ := by
  have h := Real.ceil_logb_natCast (b := 2) (r := (size : Real)) (Nat.cast_nonneg size)
  rw [Int.clog_natCast] at h
  rw [ceilLog2_eq_clog]
  exact_mod_cast h.symm

theorem ceilLog2_le_of_le_pow (size j : Nat) (h : size ≤ 2 ^ j) : ceilLog2 size ≤ j := by
  by_contra hn
  have := (ceilLog2_spec size).2 j (not_le.mp hn)
  omega

/-- For an exponent of at most 30 the `int` shift and the conversion to
`size_t` give the power of two. -/
theorem newSizeOfExponent_of_le (c : Nat) (h : c ≤ 30) :
    newSizeOfExponent (c : Int) = .ok (2 ^ c) := by
  have hpow : (2 : Int) ^ c ≤ 2 ^ 30 := pow_le_pow_right₀ (by norm_num) h
  have hpos : (0 : Int) < 2 ^ c := by positivity
  have hw : wrap (2 ^ c) = 2 ^ c := by
    unfold wrap
    norm_num at hpow
    omega
  have hs : toSizeT (2 ^ c) = 2 ^ c := by
    unfold toSizeT
    norm_num at hpow
    rw [Int.emod_eq_of_lt (le_of_lt hpos) (by omega)]
    exact_mod_cast Int.toNat_natCast (2 ^ c)
  unfold newSizeOfExponent shiftOne
  rw [if_pos ⟨by omega, by omega⟩]
  simp only [bind, Except.bind, pure, Except.pure, Int.toNat_natCast, hw, hs]

theorem ceilLog2_large : ceilLog2 1073741825 = 31 := by
  obtain ⟨h₁, h₂⟩ := ceilLog2_spec 1073741825
  apply le_antisymm
  · exact ceilLog2_le_of_le_pow _ 31 (by norm_num)
  · by_contra hn
    have hle : ceilLog2 1073741825 ≤ 30 := by omega
    have : 2 ^ ceilLog2 1073741825 ≤ 2 ^ 30 := Nat.pow_le_pow_right (by norm_num) hle
    norm_num at this
    omega

/-- At the exponent 31 the `int` shift gives `INT_MIN`, which as a `size_t` is
`2 ^ 64 - 2 ^ 31`. -/
theorem newSizeOfExponent_31 : newSizeOfExponent 31 = .ok 18446744071562067968 := by
  decide

/-- Whatever exponent the cast returns, line 65 gives no power of two above
`2 ^ 30`. -/
theorem newSizeOfExponent_not_large_power (c : Int) (v : Nat)
    (h : newSizeOfExponent c = .ok v) : ¬((∃ k, v = 2 ^ k) ∧ 2 ^ 30 < v) := by
  unfold newSizeOfExponent shiftOne at h
  by_cases hc : 0 ≤ c ∧ c < 32
  · rw [if_pos hc] at h
    simp only [bind, Except.bind, pure, Except.pure, Except.ok.injEq] at h
    obtain ⟨c', rfl⟩ := Int.eq_ofNat_of_zero_le hc.1
    have hc' : c' < 32 := by omega
    rw [Int.toNat_natCast] at h
    rintro ⟨⟨k, hk⟩, hlt⟩
    rcases Nat.lt_or_ge c' 31 with h31 | h31
    · have hv := newSizeOfExponent_of_le c' (by omega)
      unfold newSizeOfExponent shiftOne at hv
      rw [if_pos hc] at hv
      simp only [bind, Except.bind, pure, Except.pure, Except.ok.injEq, Int.toNat_natCast] at hv
      rw [hv] at h
      have : 2 ^ c' ≤ 2 ^ 30 := Nat.pow_le_pow_right (by norm_num) (by omega)
      omega
    · have hc31 : c' = 31 := by omega
      subst hc31
      have hv : toSizeT (wrap (2 ^ 31)) = 18446744071562067968 := by decide
      rw [hv] at h
      subst h
      have hlo : 2 ^ 63 < 2 ^ k := by rw [← hk]; norm_num
      have hhi : 2 ^ k < 2 ^ 64 := by rw [← hk]; norm_num
      have h1 : 63 < k := (Nat.pow_lt_pow_iff_right (by norm_num)).mp hlo
      have h2 : k < 64 := (Nat.pow_lt_pow_iff_right (by norm_num)).mp hhi
      omega
  · rw [if_neg hc] at h
    cases h

end Log

section Split

variable {R : Type} [CommRing R]

open PowerSeries

end Split

section Karatsuba

variable {R : Type} [CommRing R]

open PowerSeries

theorem getElem?_of_getD (C : Poly R) (k : Nat) (x : R) (hk : k < C.length)
    (h : C.getD k 0 = x) : C[k]? = some x := by
  rw [List.getD_eq_getElem?_getD, List.getElem?_eq_getElem hk, Option.getD_some] at h
  rw [List.getElem?_eq_getElem hk, h]

/-- The padded size is `2 ^ ceilLog2 size`, at most every power of two that
is at least `size`. -/
theorem newSize_least (A B : Poly R) (f : Frame R) (hsize : 2 ≤ max A.length B.length)
    (sp : PrepareSpec A B f) :
    f.newSize = 2 ^ ceilLog2 (max A.length B.length) ∧
      ∀ j, max A.length B.length ≤ 2 ^ j → f.newSize ≤ 2 ^ j := by
  have hc := ceilLog2_pos _ hsize
  have hpow : f.newSize = 2 ^ ceilLog2 (max A.length B.length) := by
    rw [sp.newSize_eq, sp.mid_eq]
    conv_rhs => rw [show ceilLog2 (max A.length B.length) =
      (ceilLog2 (max A.length B.length) - 1) + 1 by omega]
    rw [pow_succ]; ring
  refine ⟨hpow, ?_⟩
  intro j hj
  rw [hpow]
  apply Nat.pow_le_pow_right (by norm_num)
  by_contra hn
  have := (ceilLog2_spec (max A.length B.length)).2 j (by omega)
  omega

end Karatsuba

/-- The sum `INT_MAX + 1` wraps to `INT_MIN`, and `65536 * 65536` to `0`. -/
theorem wrapInt_overflow :
    (WrapInt.ofInt 2147483647 + WrapInt.ofInt 1).val = -2147483648 ∧
      (WrapInt.ofInt 65536 * WrapInt.ofInt 65536).val = 0 := by
  decide

section LargeSize

/-- Up to `2 ^ 30` elements, if the cast of line 65 returns the ceiling of the
real logarithm of `size`, then the `int` shift converted to `size_t` is the
least power of two that is at least `size`, and it is the value of the model. -/
theorem newSizeOfExponent_least (size : Nat) (c : Int) (h : size ≤ 2 ^ 30)
    (hc : c = ⌈Real.logb 2 (size : Real)⌉) :
    ∃ k, newSizeOfExponent c = .ok (2 ^ k) ∧ size ≤ 2 ^ k ∧ (∀ j, size ≤ 2 ^ j → 2 ^ k ≤ 2 ^ j) ∧
      (1 ≤ size → paddedSize size = .ok (2 ^ k)) := by
  have hc' : c = (ceilLog2 size : Int) := by rw [hc, ceilLog2_eq_ceil_logb]
  have h30 := ceilLog2_le_of_le_pow size 30 h
  refine ⟨ceilLog2 size, ?_, (ceilLog2_spec size).1, ?_, ?_⟩
  · rw [hc']; exact newSizeOfExponent_of_le _ h30
  · intro j hj
    exact Nat.pow_le_pow_right (by norm_num) (ceilLog2_le_of_le_pow size j hj)
  · intro h1
    unfold paddedSize
    rw [if_neg (by omega), Nat.one_shiftLeft]

/-- The operations `add` and `sub` at the bounds of `int`. -/
theorem add_sub_overflow :
    add [WrapInt.ofInt 2147483647] [WrapInt.ofInt 1] = .ok [WrapInt.ofInt (-2147483648)] ∧
      sub [WrapInt.ofInt (-2147483648)] [WrapInt.ofInt 1] = .ok [WrapInt.ofInt 2147483647] := by
  decide

end LargeSize

section WrapArith

theorem wrap_val (x : WrapInt) : wrap x.val = x.val := by
  have h₁ := x.lo
  have h₂ := x.hi
  unfold wrap
  omega

theorem val_sub (a b : WrapInt) : (a - b).val = wrap (a.val - b.val) := rfl

end WrapArith

section Claims

open PowerSeries

/-- C11: over the 32-bit `int`, for all `A` and `B`, of any lengths,
`add(A, B)` has length `max(|A|, |B|)` and its entry `i` is `a_i + b_i`, where
`a_i` is `A[i]` for `i < |A|` and `0` otherwise, and likewise `b_i`; the sum is
that of `int`, the integer sum wrapped modulo `2^32`. -/
theorem C11_add_entries (A B : Poly WrapInt) :
    ∃ C, add A B = .ok C ∧ C.length = max A.length B.length ∧
      ∀ i, i < max A.length B.length →
        C[i]? = some (A.getD i 0 + B.getD i 0) ∧
        (A.getD i 0 + B.getD i 0).val = wrap ((A.getD i 0).val + (B.getD i 0).val) := by
  obtain ⟨C, hC, hl, hg⟩ := add_spec A B
  refine ⟨C, hC, hl, ?_⟩
  intro i hi
  refine ⟨?_, rfl⟩
  apply getElem?_of_getD C i _ (by rw [hl]; exact hi)
  rw [← coeff_gen, hg, map_add, coeff_gen, coeff_gen]

/-- C12: over the 32-bit `int`, for all `A` and `B`, of any lengths,
`sub(A, B)` has length `max(|A|, |B|)` and its entry `i` is `a_i - b_i`, where
`a_i` is `A[i]` for `i < |A|` and `0` otherwise, and likewise `b_i`; the
difference is that of `int`, the integer difference wrapped modulo `2^32`. -/
theorem C12_sub_entries (A B : Poly WrapInt) :
    ∃ C, sub A B = .ok C ∧ C.length = max A.length B.length ∧
      ∀ i, i < max A.length B.length →
        C[i]? = some (A.getD i 0 - B.getD i 0) ∧
        (A.getD i 0 - B.getD i 0).val = wrap ((A.getD i 0).val - (B.getD i 0).val) := by
  obtain ⟨C, hC, hl, hg⟩ := sub_spec A B
  refine ⟨C, hC, hl, ?_⟩
  intro i hi
  refine ⟨?_, rfl⟩
  apply getElem?_of_getD C i _ (by rw [hl]; exact hi)
  rw [← coeff_gen, hg, map_sub, coeff_gen, coeff_gen]

/-- C13: for `A = [3, 2, 5]` and `B = [5, 1, 2]`, `naiveMultiply(A, B)` and
`karatsubaMultiply(A, B)` both return `[15, 13, 33, 9, 10]`. -/
theorem C13_test_scenario :
    naiveMultiply ([3, 2, 5] : Poly Int) [5, 1, 2] = .ok [15, 13, 33, 9, 10] ∧
      karatsubaMultiply ([3, 2, 5] : Poly Int) [5, 1, 2] = .ok [15, 13, 33, 9, 10] := by
  decide

/-- C15 fails on the code at operands of lengths `2 ^ 30 + 1` and `1`: the
smallest power of two that is at least `size` is `2 ^ 31`, the exponent is 31,
and the shift `1 << 31` of the `int` literal of line 65, converted to
`size_t`, is `2 ^ 64 - 2 ^ 31`, which is not a power of two; whatever exponent
the cast returns, the `int` shift gives no power of two that is at least
`size`. -/
theorem C15_newSize_at_large_size :
    ceilLog2 1073741825 = 31 ∧
    (1073741825 ≤ 2 ^ 31 ∧ ∀ j, 1073741825 ≤ 2 ^ j → 2 ^ 31 ≤ 2 ^ j) ∧
    newSizeOfExponent 31 = .ok 18446744071562067968 ∧
    (¬∃ k, 18446744071562067968 = 2 ^ k) ∧
    (∀ (c : Int) (v : Nat), newSizeOfExponent c = .ok v →
      ¬((∃ k, v = 2 ^ k) ∧ 1073741825 ≤ v)) := by
  refine ⟨ceilLog2_large, ⟨by norm_num, ?_⟩, newSizeOfExponent_31, ?_, ?_⟩
  · intro j hj
    apply Nat.pow_le_pow_right (by norm_num)
    by_contra hn
    have : 2 ^ j ≤ 2 ^ 30 := Nat.pow_le_pow_right (by norm_num) (by omega)
    norm_num at this
    omega
  · intro hk
    exact newSizeOfExponent_not_large_power 31 _ newSizeOfExponent_31 ⟨hk, by norm_num⟩
  · intro c v hv hcon
    exact newSizeOfExponent_not_large_power c v hv ⟨hcon.1, by have := hcon.2; norm_num; omega⟩

end Claims

end Par
